import Mathlib

/-!
Shallow embedding of the news aggregation backend of this repository
(result cache, circuit breaker, rate limiter, upstream option validators,
the country HTTP handler, and the aggregator's merge step), together with
theorems checking the specification's claims against it.

Conventions used throughout:

* JS timestamps (`Date.now()`) are modelled as `Int` milliseconds and passed
  explicitly wherever the source reads the clock.
* A JS `Map` (and a JS options object) is modelled as an association list
  with at most one binding per key; `Map.set` is modelled as erase-then-append,
  which is extensionally the same map (iteration order is irrelevant to every
  property proved here).
* Host-environment behaviour that the source delegates to the runtime —
  WHATWG URL parsing (`new URL`), `Date` string parsing — is a parameter
  (`JsEnv`), never reimplemented; nothing proved here depends on it.
* JS truthiness of strings and numbers (`""` and `0` are falsy) is modelled
  explicitly where the source branches on it.
-/

/-- Result of a JS `||` default on a possibly-absent string, e.g.
`article.title || ''` (empty string and absent value are both falsy). -/
def jsOrStr (v : Option String) (dflt : String) : String :=
  match v with
  | some s => if s = "" then dflt else s
  | none => dflt

/-- JS `a || b` for two possibly-absent strings, e.g.
`article.publishedAt || article.published_at`. -/
def jsOr (a b : Option String) : Option String :=
  match a with
  | some s => if s = "" then b else some s
  | none => b

/-- A JS value stored in an options/params object: a string or a number.
Numbers are modelled as `Int` (all the numeric fields the code inspects are
integral). -/
inductive JVal where
  | str (s : String)
  | num (n : Int)
deriving DecidableEq, Repr

/-- JS truthiness of a `JVal` (`0` and `""` are falsy). -/
def jvTruthy : JVal → Bool
  | .str s => s ≠ ""
  | .num n => n ≠ 0

/-- The out-of-range test `value < 1 || value > 100` that the validators apply
to a page-size/limit field. A string value never satisfies the numeric
comparison here (the claims under check only concern numeric values). -/
def jvOutOfRange : JVal → Bool
  | .str _ => false
  | .num n => n < 1 || n > 100

/-- Property access `obj[k]` on an object whose fields are all defined,
modelled as the first binding of `k` in the association list. -/
def jsGet (l : List (String × JVal)) (k : String) : Option JVal :=
  (l.find? (fun p => p.1 = k)).map Prod.snd

/-- Property access on an object whose fields may be explicitly `undefined`
(`none` in the inner `Option`). -/
def jsGetOpt (l : List (String × Option JVal)) (k : String) : Option (Option JVal) :=
  (l.find? (fun p => p.1 = k)).map Prod.snd

/-! ### CacheManager (news-aggregator source, lines 6-50) -/

/-- One cache entry: data plus absolute expiry time (`Date.now() + ttl`). -/
structure CacheItem (α : Type) where
  data : α
  expiry : Int
deriving DecidableEq, Repr

/-- The cache's backing `Map`, as an association list with unique keys. -/
abbrev Cache (α : Type) : Type := List (String × CacheItem α)

/-- JS string order on character lists: lexicographic by code unit, as used by
`Array.prototype.sort()` with no comparator on `Object.keys(params)`. Lean
`Char`s compare by code point; this coincides with UTF-16 code-unit order on
all characters below U+10000, which covers every key the code ever builds
(plain ASCII option names). The only property C8 needs of this comparison is
that it is a total order, proved below. -/
def codeLt : List Char → List Char → Bool
  | [], [] => false
  | [], _ :: _ => true
  | _ :: _, [] => false
  | a :: as, b :: bs => if a < b then true else if b < a then false else codeLt as bs

/-- The `a ≤ b` comparison induced by `codeLt`. -/
def strLe (a b : String) : Bool := ! codeLt b.toList a.toList

/-- `Object.keys(params).sort()`: sort the key list by JS string order.
`insertionSort` is a stable sort, like the sort required of JS engines
(stability is moot here anyway: an object's keys are distinct). -/
def sortKeysJs (keys : List String) : List String :=
  List.insertionSort (fun a b => strLe a b = true) keys

/-- One hexadecimal digit, lower case, as emitted by `JSON.stringify`'s
`\u00XX` escapes. -/
def hexDigit (n : Nat) : Char :=
  if n < 10 then Char.ofNat ('0'.toNat + n) else Char.ofNat ('a'.toNat + (n - 10))

/-- `JSON.stringify` string escaping: quote and backslash are
backslash-escaped, the named control escapes use their short forms, any other
control character becomes `\u00XX`, and everything else passes through. -/
def jsonEscape (s : String) : String :=
  String.mk (s.toList.flatMap (fun c =>
    if c = '"' ∨ c = '\\' then ['\\', c]
    else if c = '\x08' then ['\\', 'b']
    else if c = '\t' then ['\\', 't']
    else if c = '\n' then ['\\', 'n']
    else if c = '\x0c' then ['\\', 'f']
    else if c = '\x0d' then ['\\', 'r']
    else if c.toNat < 32 then ['\\', 'u', '0', '0', hexDigit (c.toNat / 16), hexDigit (c.toNat % 16)]
    else [c]))

/-- `JSON.stringify` of one JS value. -/
def JVal.jsonStr : JVal → String
  | .str s => "\"" ++ jsonEscape s ++ "\""
  | .num n => toString n

/-- `JSON.stringify` of an object, fields in the object's insertion order. -/
def jsonStringify (ps : List (String × JVal)) : String :=
  "\x7b" ++ String.intercalate "," (ps.map (fun p => "\"" ++ jsonEscape p.1 ++ "\":" ++ p.2.jsonStr)) ++ "\x7d"

/-- `CacheManager.generateKey(service, endpoint, params)`: rebuild the params
object with its keys sorted, then `service:endpoint:JSON.stringify(sorted)`. -/
def CacheManager.generateKey (service endpoint : String) (params : List (String × JVal)) : String :=
  let sorted := sortKeysJs (params.map Prod.fst)
  let sortedParams := sorted.filterMap (fun k => (jsGet params k).map (fun v => (k, v)))
  service ++ ":" ++ endpoint ++ ":" ++ jsonStringify sortedParams

/-- `CacheManager.set(key, data, ttl)` at clock reading `now`: store the data
with expiry `now + ttl`, replacing any previous binding of the key. -/
def CacheManager.set {α : Type} (c : Cache α) (key : String) (d : α) (ttl now : Int) : Cache α :=
  List.filter (fun p => p.1 ≠ key) c ++ [(key, { data := d, expiry := now + ttl })]

/-- `CacheManager.get(key)` at clock reading `now`: return the stored data if
its expiry is still in the future; an expired entry is deleted and treated as
absent (`null`). Returns the result together with the updated cache. -/
def CacheManager.get {α : Type} (c : Cache α) (key : String) (now : Int) : Option α × Cache α :=
  match List.find? (fun p => p.1 = key) c with
  | some p => if p.2.expiry > now then (some p.2.data, c)
              else (none, List.filter (fun q => q.1 ≠ key) c)
  | none => (none, c)

/-- `CacheManager.size()`. -/
def CacheManager.size {α : Type} (c : Cache α) : Nat := List.length c

/-! ### CircuitBreaker (news-clients source, lines 58-99) -/

/-- The three breaker states `'CLOSED' | 'OPEN' | 'HALF_OPEN'`. -/
inductive BreakerState where
  | Closed
  | Open
  | HalfOpen
deriving DecidableEq, Repr

/-- The breaker's fields: configuration (`failureThreshold`, `timeout`) and
mutable state (`state`, `failureCount`, `lastFailureTime`, which starts
`null`). -/
structure CircuitBreaker where
  failureThreshold : Nat
  timeout : Int
  state : BreakerState
  failureCount : Nat
  lastFailureTime : Option Int
deriving DecidableEq, Repr

/-- `new CircuitBreaker(threshold, timeout)`. -/
def CircuitBreaker.new (threshold : Nat) (tmo : Int) : CircuitBreaker :=
  { failureThreshold := threshold, timeout := tmo, state := .Closed,
    failureCount := 0, lastFailureTime := none }

/-- `onSuccess()`: reset the failure count and close the circuit. -/
def CircuitBreaker.onSuccess (cb : CircuitBreaker) : CircuitBreaker :=
  { cb with failureCount := 0, state := .Closed }

/-- `onFailure()` at clock reading `now`: bump the failure count, record the
failure time, and open the circuit once the threshold is reached. -/
def CircuitBreaker.onFailure (cb : CircuitBreaker) (now : Int) : CircuitBreaker :=
  let cb' := { cb with failureCount := cb.failureCount + 1, lastFailureTime := some now }
  if cb'.failureThreshold ≤ cb'.failureCount then { cb' with state := .Open } else cb'

/-- The entry check of `call(fn)`: while `OPEN`, either transition to
`HALF_OPEN` (when more than `timeout` has elapsed since the last failure,
JS `null` coercing to 0) or reject without invoking `fn` (`none`). In any
other state the call passes through. -/
def CircuitBreaker.gate (cb : CircuitBreaker) (now : Int) : Option CircuitBreaker :=
  if cb.state = .Open then
    if now - (cb.lastFailureTime.getD 0) > cb.timeout then some { cb with state := .HalfOpen }
    else none
  else some cb

/-- Outcome of one `call(fn)`: the wrapped function was invoked and succeeded,
was invoked and threw, or was never invoked because the circuit is open. -/
inductive CallResult where
  | ok
  | fnError
  | circuitOpen
deriving DecidableEq, Repr

/-- `call(fn)` at clock reading `now`, where `fnSucceeds` is the outcome the
wrapped function would produce if invoked. When the gate rejects, `fn` is not
invoked and the breaker is unchanged. -/
def CircuitBreaker.call (cb : CircuitBreaker) (now : Int) (fnSucceeds : Bool) :
    CallResult × CircuitBreaker :=
  match cb.gate now with
  | none => (.circuitOpen, cb)
  | some cb' => if fnSucceeds then (.ok, cb'.onSuccess) else (.fnError, cb'.onFailure now)

/-- Run a sequence of calls; each element of the trace is a clock reading and
the wrapped function's outcome at that call. -/
def CircuitBreaker.run (cb : CircuitBreaker) (trace : List (Int × Bool)) : CircuitBreaker :=
  trace.foldl (fun c s => (c.call s.1 s.2).2) cb

/-- Run a sequence of calls whose wrapped function fails every time. -/
def CircuitBreaker.runFailures (cb : CircuitBreaker) (times : List Int) : CircuitBreaker :=
  times.foldl (fun c t => (c.call t false).2) cb

/-- The state invariant of the breaker: whenever the circuit is `OPEN` or
`HALF_OPEN`, the failure count has reached the threshold (the count is reset
only by a success, never by the `OPEN` to `HALF_OPEN` transition). -/
def breakerInv (cb : CircuitBreaker) : Prop :=
  (cb.state = .Open ∨ cb.state = .HalfOpen) → cb.failureThreshold ≤ cb.failureCount

instance (cb : CircuitBreaker) : Decidable (breakerInv cb) :=
  inferInstanceAs (Decidable
    ((cb.state = .Open ∨ cb.state = .HalfOpen) → cb.failureThreshold ≤ cb.failureCount))

/-! ### APIRateLimiter (news-clients source, lines 6-53) -/

/-- The limiter state tracked by one drain iteration: the retained window of
request timestamps (`this.requests`), plus — for the specification's guarantee
— the log of every admitted execution timestamp. -/
structure RLState where
  requests : List Int
  admitted : List Int
deriving DecidableEq, Repr

/-- The window prune `this.requests.filter(time => now - time < 60000)`. -/
def pruneWindow (requests : List Int) (now : Int) : List Int :=
  requests.filter (fun time => now - time < 60000)

/-- One iteration of the `processQueue` drain loop at clock reading `now`,
assuming the queue is non-empty: prune the window, then either admit the
oldest queued task (recording `now` in the window) if a slot is free, or leave
the state as pruned (the source then waits 1s and retries). -/
def processStep (r : Nat) (st : RLState) (now : Int) : RLState :=
  let reqs := pruneWindow st.requests now
  if reqs.length < r then
    { requests := reqs ++ [now], admitted := st.admitted ++ [now] }
  else
    { requests := reqs, admitted := st.admitted }

/-- A whole drain run from a fresh limiter: one `processStep` per loop
iteration, at the given (monotone) clock readings. -/
def processRun (r : Nat) (times : List Int) : RLState :=
  times.foldl (processStep r) { requests := [], admitted := [] }

/-- Number of admitted executions inside the trailing 60-second window ending
at `t`. -/
def windowCount (admitted : List Int) (t : Int) : Nat :=
  (admitted.filter (fun u => t - 60000 < u ∧ u ≤ t)).length

/-! ### Upstream option validators (news-clients source, lines 150-189 and 269-285) -/

/-- The allow-list of `validateHeadlinesParams`. -/
def headlinesAllowed : List String := ["country", "category", "sources", "q", "pageSize", "page"]

/-- The allow-list of `validateSearchParams`. -/
def searchAllowed : List String :=
  ["q", "sources", "domains", "from", "to", "language", "sortBy", "pageSize", "page"]

/-- The allow-list of `validateNewsParams` (MediaStack). -/
def newsAllowed : List String :=
  ["keywords", "countries", "categories", "languages", "sources", "sort", "limit", "offset"]

/-- The `for (const [key, value] of Object.entries(params))` loop shared by all
three validators: keep a field iff its key is on the allow-list and its value
is not `undefined`. -/
def allowFilter (allowed : List String) (params : List (String × Option JVal)) :
    List (String × JVal) :=
  params.filterMap (fun p =>
    match p.2 with
    | some v => if allowed.contains p.1 then some (p.1, v) else none
    | none => none)

/-- The clamp `if (filtered.f && (filtered.f < 1 || filtered.f > 100)) filtered.f = dflt`
applied to the field named `nm`. Note the JS truthiness test: a value of `0`
is falsy, so it is never clamped. -/
def clampField (nm : String) (dflt : Int) (l : List (String × JVal)) : List (String × JVal) :=
  match l.find? (fun p => p.1 = nm) with
  | some p =>
    if jvTruthy p.2 && jvOutOfRange p.2 then
      l.map (fun q => if q.1 = nm then (q.1, .num dflt) else q)
    else l
  | none => l

/-- The regex test `/^[a-z]{2}$/` on a string. -/
def isLangCode (s : String) : Bool :=
  s.length = 2 && s.toList.all (fun c => 'a' ≤ c && c ≤ 'z')

/-- The language check of `validateSearchParams`:
`if (filtered.language && !/^[a-z]{2}$/.test(filtered.language)) delete filtered.language`. -/
def dropBadLanguage (l : List (String × JVal)) : List (String × JVal) :=
  match l.find? (fun p => p.1 = "language") with
  | some p =>
    if jvTruthy p.2 && !(match p.2 with | .str s => isLangCode s | .num _ => false) then
      l.filter (fun q => q.1 ≠ "language")
    else l
  | none => l

/-- `NewsAPIClient.validateHeadlinesParams`. -/
def validateHeadlinesParams (params : List (String × Option JVal)) : List (String × JVal) :=
  clampField "pageSize" 20 (allowFilter headlinesAllowed params)

/-- `NewsAPIClient.validateSearchParams`. -/
def validateSearchParams (params : List (String × Option JVal)) : List (String × JVal) :=
  clampField "pageSize" 20 (dropBadLanguage (allowFilter searchAllowed params))

/-- `MediaStackClient.validateNewsParams`. -/
def validateNewsParams (params : List (String × Option JVal)) : List (String × JVal) :=
  clampField "limit" 25 (allowFilter newsAllowed params)

/-! ### GET /api/news/country/:country handler (backend server source, lines 118-141) -/

/-- What the country handler does with a request: reject it at the boundary
with a 400, or proceed to `getNewsByCountry` (i.e. perform aggregation and
upstream calls). -/
inductive CountryResponse where
  | badRequest (msg : String)
  | aggregated (country : String) (timespan : String)
deriving DecidableEq, Repr

/-- The 400 message of the country handler. -/
def countryErrorMsg : String := "Country parameter must be a valid 2-letter country code"

/-- The country handler's validation and dispatch:
`if (!country || country.length !== 2) return 400; else aggregate with
timespan || '1d'`. -/
def handleCountryRequest (country : String) (timespan : Option String) : CountryResponse :=
  if country = "" ∨ country.length ≠ 2 then .badRequest countryErrorMsg
  else .aggregated country (jsOrStr timespan "1d")

/-- Modelled from the claim's wording only (used to state the counterexample):
a path segment consisting of exactly 2 letters. -/
def specTwoLetters (s : String) : Bool :=
  s.length = 2 && s.toList.all Char.isAlpha

/-! ### DataSanitizer (news-aggregator source, lines 55-114) -/

/-- Character scanner equivalent of the global regex replace
`str.replace(/<[^>]*>/g, '')`: on a `<` that is followed by some `>`, drop
everything through the first such `>`; a `<` with no later `>` never matches
the regex and is kept. -/
def stripTags : List Char → List Char
  | [] => []
  | c :: rest =>
    if c = '<' ∧ rest.contains '>' then
      stripTags (List.tail (rest.dropWhile (fun d => ¬ (d = '>'))))
    else
      c :: stripTags rest
termination_by l => l.length
decreasing_by
  · have h1 : (rest.dropWhile (fun d => decide ¬ (d = '>'))).length ≤ rest.length :=
      (List.dropWhile_sublist _).length_le
    have h2 := List.length_tail (rest.dropWhile (fun d => decide ¬ (d = '>')))
    simp only [List.length_cons]
    omega
  · simp only [List.length_cons]
    omega

/-- `String.prototype.trim()`: strip leading and trailing whitespace. -/
def trimStr (s : String) : String :=
  String.mk (((s.toList.dropWhile Char.isWhitespace).reverse.dropWhile Char.isWhitespace).reverse)

/-- `DataSanitizer.sanitizeHtml(str)`: `''` for a falsy argument, otherwise
strip tags and trim. -/
def sanitizeHtml (s : String) : String :=
  if s = "" then "" else trimStr (String.mk (stripTags s.toList))

/-- `String.prototype.toLowerCase()`, character by character. -/
def lowerStr (s : String) : String := String.mk (s.toList.map Char.toLower)

/-- `String.prototype.includes(pat)` on character lists. -/
def containsSeq : List Char → List Char → Bool
  | pat, [] => pat.isPrefixOf []
  | pat, c :: t => pat.isPrefixOf (c :: t) || containsSeq pat (t : List Char)

/-- The fixed gazetteer of `DataSanitizer.extractLocation`. -/
def knownLocations : List String :=
  ["syria", "iraq", "iran", "israel", "palestine", "lebanon", "jordan",
   "turkey", "egypt", "saudi arabia", "uae", "qatar", "bahrain", "kuwait",
   "yemen", "oman", "afghanistan", "pakistan", "india", "azerbaijan"]

/-- Host-environment behaviour the sanitizer delegates to the JS runtime:
whether `new URL(s)` succeeds (WHATWG URL parsing), and `Date` string parsing
(`some` timestamp for a parseable date, `none` when `new Date(...)` is
invalid so that `toISOString()` throws). `now` is the current clock reading
used as the fallback date. -/
structure JsEnv where
  validUrl : String → Bool
  parseDate : String → Option Int
  now : Int

/-- `this.isValidUrl(article.url) ? article.url : null` (an absent field makes
`new URL` throw, hence `null`). -/
def validatedUrl (env : JsEnv) (v : Option String) : Option String :=
  match v with
  | some u => if env.validUrl u then some u else none
  | none => none

/-- `DataSanitizer.normalizeDate(dateString)`: the parsed date rendered by
`toISOString()` (represented by its timestamp, to which the ISO-8601 rendering
is in bijection), falling back to the current time when parsing fails or the
field is absent. -/
def normalizeDate (env : JsEnv) (v : Option String) : Int :=
  match v with
  | some s => (env.parseDate s).getD env.now
  | none => env.now

/-- A raw provider article record, all fields possibly absent. -/
structure RawArticle where
  title : Option String := none
  description : Option String := none
  content : Option String := none
  url : Option String := none
  publishedAt : Option String := none
  published_at : Option String := none
  sourceName : Option String := none
  author : Option String := none
  urlToImage : Option String := none
deriving DecidableEq, Repr

/-- The canonical article produced by the sanitizer (plus the `locations`
field the merge step adds). `publishedAt` is the ISO-8601 instant as a
timestamp. -/
structure Article where
  title : String
  description : String
  content : String
  url : Option String
  publishedAt : Int
  sourceName : String
  sourceApi : String
  author : String
  urlToImage : Option String
  locations : List String
deriving DecidableEq, Repr

/-- `DataSanitizer.sanitizeArticle(article, source)`. -/
def sanitizeArticle (env : JsEnv) (a : RawArticle) (source : String) : Article :=
  { title := sanitizeHtml (jsOrStr a.title "")
    description := sanitizeHtml (jsOrStr a.description "")
    content := sanitizeHtml (jsOrStr a.content "")
    url := validatedUrl env a.url
    publishedAt := normalizeDate env (jsOr a.publishedAt a.published_at)
    sourceName := sanitizeHtml (jsOrStr a.sourceName "Unknown")
    sourceApi := source
    author := sanitizeHtml (jsOrStr a.author "")
    urlToImage := validatedUrl env a.urlToImage
    locations := [] }

/-- `DataSanitizer.extractLocation(article)`: every gazetteer entry contained
in the lower-cased title+description text, in gazetteer order. -/
def extractLocation (a : Article) : List String :=
  knownLocations.filter (fun loc => containsSeq loc.toList (lowerStr (a.title ++ " " ++ a.description)).toList)

/-! ### NewsAggregator.mergeResults (news-aggregator source, lines 241-307) -/

/-- The raw payload a provider promise resolved with: either an object (whose
`articles` and `data` fields each hold an array or are absent) or a bare
array. An array-valued field is always truthy in JS, even when empty. -/
inductive RawData where
  | obj (articles : Option (List RawArticle)) (data : Option (List RawArticle))
  | arr (items : List RawArticle)
deriving DecidableEq, Repr

/-- The `articles` field of the payload (`undefined` on a bare array). -/
def RawData.articlesField : RawData → Option (List RawArticle)
  | .obj a _ => a
  | .arr _ => none

/-- The `data` field of the payload (`undefined` on a bare array). -/
def RawData.dataField : RawData → Option (List RawArticle)
  | .obj _ d => d
  | .arr _ => none

/-- `Array.isArray(data)`. -/
def RawData.isArr : RawData → Bool
  | .obj _ _ => false
  | .arr _ => true

/-- The items of a bare-array payload. -/
def RawData.arrItems : RawData → List RawArticle
  | .obj _ _ => []
  | .arr l => l

/-- Direct transcription of the provider-shape branch chain in `mergeResults`
(news-aggregator source, lines 265-276). The second branch guards on
`data.articles && Array.isArray(data.articles)` — it re-tests the `articles`
field exactly as the source does, so it can never fire when the first branch
did not, and the `data.data` extraction it performs is unreachable. -/
def extractRawArticles (maxPerSource : Nat) (d : RawData) : List RawArticle :=
  if (RawData.articlesField d).isSome then
    (RawData.articlesField d).getD []
  else if (RawData.articlesField d).isSome then
    (RawData.dataField d).getD []
  else if RawData.isArr d then
    (RawData.arrItems d).take maxPerSource
  else
    []

/-- The tagged result of one upstream call: the `.then`/`.catch` pair in the
aggregator turns every client promise into `{source, data, success:true}` or
`{source, error, success:false}`. -/
inductive UpstreamResult where
  | ok (data : RawData)
  | err (message : String)
deriving DecidableEq, Repr

/-- One tagged outcome handed to `mergeResults`. -/
structure Outcome where
  source : String
  result : UpstreamResult
deriving DecidableEq, Repr

/-- Whether the outcome carries `success: true`. -/
def Outcome.isOk (o : Outcome) : Bool :=
  match o.result with
  | .ok _ => true
  | .err _ => false

/-- One element of the `Promise.allSettled` result array. Because every
dispatched promise carries a `.catch`, in the aggregator all elements are
fulfilled; `mergeResults` itself skips rejected elements, which the model
keeps. -/
inductive SettledResult where
  | fulfilled (value : Outcome)
  | rejected
deriving DecidableEq, Repr

/-- The merged aggregate result (the metadata timestamp field carries no
information checked by any claim and is omitted). -/
structure MergedResult where
  articles : List Article
  sources : List String
  errors : List (String × String)
  totalSources : Nat
  successfulSources : Nat
deriving DecidableEq, Repr

/-- The articles one successful outcome contributes: extract the raw list per
provider shape, sanitize each entry, and attach its extracted locations. -/
def normalizeOutcomeArticles (env : JsEnv) (maxPerSource : Nat) (source : String) (d : RawData) :
    List Article :=
  (extractRawArticles maxPerSource d).map (fun a =>
    let s := sanitizeArticle env a source
    { s with locations := extractLocation s })

/-- One iteration of the `results.forEach` accumulation in `mergeResults`. -/
def mergeStep (env : JsEnv) (maxPerSource : Nat) (m : MergedResult) (r : SettledResult) :
    MergedResult :=
  match r with
  | .rejected => m
  | .fulfilled o =>
    match o.result with
    | .err e =>
      { m with totalSources := m.totalSources + 1,
               errors := m.errors ++ [(o.source, e)] }
    | .ok d =>
      { m with totalSources := m.totalSources + 1,
               successfulSources := m.successfulSources + 1,
               sources := m.sources ++ [o.source],
               articles := m.articles ++ normalizeOutcomeArticles env maxPerSource o.source d }

/-- The articles one element of the settled array contributes to the merge
(read off the success branch of `mergeStep`). -/
def settledArticles (env : JsEnv) (maxPerSource : Nat) : SettledResult → List Article
  | .fulfilled o =>
    match o.result with
    | .ok d => normalizeOutcomeArticles env maxPerSource o.source d
    | .err _ => []
  | .rejected => []

/-- The provider name one settled element appends to `sources`. -/
def settledSource : SettledResult → Option String
  | .fulfilled o => match o.result with | .ok _ => some o.source | .err _ => none
  | .rejected => none

/-- The entry one settled element appends to `errors`. -/
def settledError : SettledResult → Option (String × String)
  | .fulfilled o => match o.result with | .ok _ => none | .err e => some (o.source, e)
  | .rejected => none

/-- Whether a settled element is fulfilled (counted in `totalSources`). -/
def settledIsFulfilled : SettledResult → Bool
  | .fulfilled _ => true
  | .rejected => false

/-- Whether a settled element carries a successful outcome. -/
def settledIsOk : SettledResult → Bool
  | .fulfilled o => o.isOk
  | .rejected => false

/-- The URL dedup filter of `mergeResults` (lines 288-296): a mutable `seen`
set threads through; an article with a falsy `url` (absent, or the empty
string — which the sanitizer never produces) is dropped, a repeated `url`
keeps only its first occurrence. -/
def dedupByUrl : List Article → List String → List Article
  | [], _ => []
  | a :: rest, seen =>
    match a.url with
    | none => dedupByUrl rest seen
    | some u =>
      if u = "" ∨ seen.contains u then dedupByUrl rest seen
      else a :: dedupByUrl rest (u :: seen)

/-- The sort of `mergeResults` (lines 298-301): stable sort, newest
publication instant first (the comparator re-parses the ISO string the
normalizer produced, recovering the same instant). -/
def sortByDateDesc (l : List Article) : List Article :=
  List.insertionSort (fun a b => b.publishedAt ≤ a.publishedAt) l

/-- Lines 288-304 of `mergeResults`: dedup by url, sort newest-first, truncate
to 200. -/
def mergeFinalize (l : List Article) : List Article :=
  (sortByDateDesc (dedupByUrl l [])).take 200

/-- `NewsAggregator.mergeResults(results)`. -/
def mergeResults (env : JsEnv) (maxPerSource : Nat) (results : List SettledResult) :
    MergedResult :=
  let m := results.foldl (mergeStep env maxPerSource)
    { articles := [], sources := [], errors := [], totalSources := 0, successfulSources := 0 }
  { m with articles := mergeFinalize m.articles }

/-- `NewsAggregator.aggregateNews` on a cache miss, after all dispatched
client calls settled: every dispatched promise is tagged by `.then`/`.catch`
into an `Outcome`, so `Promise.allSettled` yields only fulfilled elements, and
the aggregate resolves with `mergeResults` of them (it never rejects). -/
def aggregateOutcomes (env : JsEnv) (maxPerSource : Nat) (outcomes : List Outcome) :
    MergedResult :=
  mergeResults env maxPerSource (outcomes.map SettledResult.fulfilled)

/-- A concrete host environment used for closed evaluations. -/
def envTest : JsEnv :=
  { validUrl := fun _ => true, parseDate := fun _ => some 5, now := 0 }

/-- A concrete MediaStack-shaped article used for closed evaluations. -/
def msRawArticle : RawArticle :=
  { title := some "Pipeline restored", url := some "http://example.com/a" }

/-! ### Helper lemmas -/

/-- A filter keeping a superset predicate keeps at least as many elements. -/
theorem length_filter_mono {α : Type} (l : List α) (p q : α → Bool)
    (h : ∀ a ∈ l, p a = true → q a = true) :
    (l.filter p).length ≤ (l.filter q).length := by
  induction l with
  | nil => simp
  | cons a t ih =>
    have ht : ∀ x ∈ t, p x = true → q x = true := fun x hx => h x (List.mem_cons_of_mem a hx)
    have ihe := ih ht
    cases hp : p a <;> cases hq : q a
    · simpa [List.filter_cons, hp, hq] using ihe
    · simp only [List.filter_cons, hp, hq, if_true, if_false, List.length_cons]
      exact Nat.le_succ_of_le ihe
    · exact absurd (h a (List.mem_cons_self a t) hp) (by simp [hq])
    · simpa [List.filter_cons, hp, hq] using ihe

/-- Removing elements that the search predicate cannot match does not change
`find?`. -/
theorem find?_filter_of_imp {α : Type} (l : List α) (p q : α → Bool)
    (h : ∀ a, p a = true → q a = true) :
    (l.filter q).find? p = l.find? p := by
  induction l with
  | nil => simp
  | cons a t ih =>
    cases hp : p a
    · cases hq : q a <;> simp [List.filter_cons, List.find?_cons, hp, hq, ih]
    · have hq : q a = true := h a hp
      simp [List.filter_cons, List.find?_cons, hp, hq]

/-- In a list whose keys are distinct, two members sharing a key are equal. -/
theorem nodup_key_mem_eq {β : Type} {l : List (String × β)} (hnd : (l.map Prod.fst).Nodup)
    {p q : String × β} (hp : p ∈ l) (hq : q ∈ l) (hk : p.1 = q.1) : p = q := by
  induction l with
  | nil => cases hp
  | cons x t ih =>
    simp only [List.map_cons, List.nodup_cons] at hnd
    rcases List.mem_cons.mp hp with rfl | hp'
    · rcases List.mem_cons.mp hq with rfl | hq'
      · rfl
      · exact absurd (hk ▸ List.mem_map_of_mem Prod.fst hq') hnd.1
    · rcases List.mem_cons.mp hq with rfl | hq'
      · exact absurd (hk ▸ List.mem_map_of_mem Prod.fst hp') hnd.1
      · exact ih hnd.2 hp' hq'

/-! ### C3: cache TTL -/

/-- After a `set`, the stored binding is found. -/
theorem cache_set_find {α : Type} (c : Cache α) (k : String) (v : α) (ttl now : Int) :
    List.find? (fun p => p.1 = k) (CacheManager.set c k v ttl now)
      = some (k, { data := v, expiry := now + ttl }) := by
  unfold CacheManager.set
  rw [List.find?_append]
  have h1 : List.find? (fun p => p.1 = k) (List.filter (fun p => p.1 ≠ k) c) = none := by
    rw [List.find?_eq_none]
    intro x hx
    have := (List.mem_filter.mp hx).2
    simp at this ⊢
    exact this
  rw [h1]
  simp [List.find?]

/-- C3: after `set(k, v, ttl)` at time `now`, a `get(k)` strictly before the
expiry returns `v`; a `get(k)` at or after the expiry returns `null` and
deletes the entry, shrinking `size()` by one; and in general a `get` returns
data only from an entry whose expiry is still in the future — a read never
returns an expired entry. -/
theorem cacheManager_ttl_spec {α : Type} (c : Cache α) (k : String) (v : α) (ttl now t : Int)
    (c₂ : Cache α) (k₂ : String) (t₂ : Int) (v₂ : α) :
    (t < now + ttl → (CacheManager.get (CacheManager.set c k v ttl now) k t).1 = some v)
    ∧ (now + ttl ≤ t →
        (CacheManager.get (CacheManager.set c k v ttl now) k t).1 = none
        ∧ CacheManager.size ((CacheManager.get (CacheManager.set c k v ttl now) k t).2) + 1
          = CacheManager.size (CacheManager.set c k v ttl now))
    ∧ ((CacheManager.get c₂ k₂ t₂).1 = some v₂ →
        ∃ p : String × CacheItem α, List.find? (fun q => q.1 = k₂) c₂ = some p
          ∧ p.2.data = v₂ ∧ t₂ < p.2.expiry) := by
  refine ⟨?_, ?_, ?_⟩
  · intro h
    unfold CacheManager.get
    rw [cache_set_find]
    simp only []
    rw [if_pos (by simpa using h)]
  · intro h
    unfold CacheManager.get
    rw [cache_set_find]
    simp only []
    rw [if_neg (by simp; omega)]
    refine ⟨rfl, ?_⟩
    unfold CacheManager.set CacheManager.size
    rw [List.filter_append]
    have h2 : List.filter (fun q => q.1 ≠ k) (List.filter (fun p => p.1 ≠ k) c)
        = List.filter (fun p => p.1 ≠ k) c :=
      List.filter_eq_self.mpr (fun a ha => (List.mem_filter.mp ha).2)
    have h3 : List.filter (fun q => q.1 ≠ k) [(k, ({ data := v, expiry := now + ttl } : CacheItem α))]
        = [] := by simp
    rw [h2, h3]
    simp
  · intro h
    unfold CacheManager.get at h
    cases hf : List.find? (fun p => p.1 = k₂) c₂ with
    | none => rw [hf] at h; simp at h
    | some p =>
      rw [hf] at h
      simp only [] at h
      by_cases he : p.2.expiry > t₂
      · rw [if_pos he] at h
        refine ⟨p, rfl, ?_, he⟩
        simpa using h
      · rw [if_neg he] at h
        simp at h

/-- Closed instantiation of `cacheManager_ttl_spec` at concrete inputs. -/
theorem cacheManager_ttl_spec_witness :
    ((50 : Int) < 0 + 100
      ∧ (CacheManager.get (CacheManager.set ([] : Cache Nat) "k" 7 100 0) "k" 50).1 = some 7)
    ∧ ((0 : Int) + 100 ≤ 100
      ∧ (CacheManager.get (CacheManager.set ([] : Cache Nat) "k" 7 100 0) "k" 100).1 = none
      ∧ CacheManager.size ((CacheManager.get (CacheManager.set ([] : Cache Nat) "k" 7 100 0) "k" 100).2) + 1
        = CacheManager.size (CacheManager.set ([] : Cache Nat) "k" 7 100 0))
    ∧ ((CacheManager.get ([("k", ⟨7, 100⟩)] : Cache Nat) "k" 50).1 = some 7
      ∧ ∃ p : String × CacheItem Nat, List.find? (fun q => q.1 = "k") ([("k", ⟨7, 100⟩)] : Cache Nat) = some p
          ∧ p.2.data = 7 ∧ (50 : Int) < p.2.expiry) :=
  ⟨⟨by decide, (cacheManager_ttl_spec ([] : Cache Nat) "k" 7 100 0 50 [] "k" 0 7).1 (by decide)⟩,
   ⟨by decide, (cacheManager_ttl_spec ([] : Cache Nat) "k" 7 100 0 100 [] "k" 0 7).2.1 (by decide)⟩,
   ⟨by decide, (cacheManager_ttl_spec ([] : Cache Nat) "k" 7 100 0 100 ([("k", ⟨7, 100⟩)] : Cache Nat) "k" 50 7).2.2 (by decide)⟩⟩

/-! ### C8: cache key is insensitive to parameter order -/

/-- `codeLt` is irreflexive. -/
theorem codeLt_irrefl (l : List Char) : codeLt l l = false := by
  induction l with
  | nil => rfl
  | cons a t ih => simp [codeLt, lt_irrefl, ih]

/-- `codeLt` is transitive. -/
theorem codeLt_trans : ∀ {a b c : List Char},
    codeLt a b = true → codeLt b c = true → codeLt a c = true := by
  intro a
  induction a with
  | nil =>
    intro b c h1 h2
    cases b with
    | nil => simp [codeLt] at h1
    | cons y ys =>
      cases c with
      | nil => simp [codeLt] at h2
      | cons z zs => simp [codeLt]
  | cons x xs ih =>
    intro b c h1 h2
    cases b with
    | nil => simp [codeLt] at h1
    | cons y ys =>
      cases c with
      | nil => simp [codeLt] at h2
      | cons z zs =>
        simp only [codeLt] at h1 h2 ⊢
        rcases lt_trichotomy x y with hxy | hxy | hxy
        · rcases lt_trichotomy y z with hyz | hyz | hyz
          · rw [if_pos (lt_trans hxy hyz)]
          · subst hyz
            rw [if_pos hxy]
          · rw [if_neg (lt_asymm hyz), if_pos hyz] at h2
            cases h2
        · subst hxy
          rw [if_neg (lt_irrefl x), if_neg (lt_irrefl x)] at h1
          rcases lt_trichotomy x z with hxz | hxz | hxz
          · rw [if_pos hxz]
          · subst hxz
            rw [if_neg (lt_irrefl x), if_neg (lt_irrefl x)] at h2 ⊢
            exact ih h1 h2
          · rw [if_neg (lt_asymm hxz), if_pos hxz] at h2
            cases h2
        · rw [if_neg (lt_asymm hxy), if_pos hxy] at h1
          cases h1

/-- Two lists neither of which is `codeLt`-below the other are equal. -/
theorem codeLt_conn : ∀ {a b : List Char},
    codeLt a b = false → codeLt b a = false → a = b := by
  intro a
  induction a with
  | nil =>
    intro b h1 _
    cases b with
    | nil => rfl
    | cons y ys => simp [codeLt] at h1
  | cons x xs ih =>
    intro b h1 h2
    cases b with
    | nil => simp [codeLt] at h2
    | cons y ys =>
      simp only [codeLt] at h1 h2
      rcases lt_trichotomy x y with hxy | hxy | hxy
      · rw [if_pos hxy] at h1
        cases h1
      · subst hxy
        rw [if_neg (lt_irrefl x), if_neg (lt_irrefl x)] at h1 h2
        rw [ih h1 h2]
      · rw [if_pos hxy] at h2
        cases h2

/-- A string is determined by its character list. -/
theorem toList_inj {s t : String} (h : s.toList = t.toList) : s = t := by
  cases s
  cases t
  simp only [String.toList] at h
  simp [h]

instance : IsTrans String (fun a b => strLe a b = true) := by
  constructor
  intro a b c hab hbc
  simp only [strLe, Bool.not_eq_true', Bool.not_eq_true] at hab hbc ⊢
  cases hca : codeLt c.toList a.toList
  · rfl
  · cases hab' : codeLt a.toList b.toList
    · rw [codeLt_conn hab' hab] at hca
      rw [hca] at hbc
      cases hbc
    · have := codeLt_trans hca hab'
      rw [this] at hbc
      cases hbc

instance : IsTotal String (fun a b => strLe a b = true) := by
  constructor
  intro a b
  simp only [strLe, Bool.not_eq_true', Bool.not_eq_true]
  cases hba : codeLt b.toList a.toList
  · exact Or.inl rfl
  · cases hab : codeLt a.toList b.toList
    · exact Or.inr rfl
    · have := codeLt_trans hab hba
      rw [codeLt_irrefl] at this
      cases this

instance : IsAntisymm String (fun a b => strLe a b = true) := by
  constructor
  intro a b hab hba
  simp only [strLe, Bool.not_eq_true', Bool.not_eq_true] at hab hba
  exact toList_inj (codeLt_conn hba hab)

/-- Sorting permuted key lists yields the same sorted list. -/
theorem sortKeysJs_perm_eq {l₁ l₂ : List String} (h : l₁.Perm l₂) :
    sortKeysJs l₁ = sortKeysJs l₂ :=
  List.eq_of_perm_of_sorted
    ((List.perm_insertionSort _ l₁).trans (h.trans (List.perm_insertionSort _ l₂).symm))
    (List.sorted_insertionSort _ l₁) (List.sorted_insertionSort _ l₂)

/-- Looking a key up in a params object does not depend on field order, as
long as keys are distinct (as they are in a JS object). -/
theorem jsGet_eq_of_perm {l₁ l₂ : List (String × JVal)} (h : l₁.Perm l₂)
    (hnd : (l₁.map Prod.fst).Nodup) (k : String) : jsGet l₁ k = jsGet l₂ k := by
  unfold jsGet
  cases hf : List.find? (fun p => p.1 = k) l₁ with
  | none =>
    have h2 : List.find? (fun p => p.1 = k) l₂ = none := by
      rw [List.find?_eq_none] at hf ⊢
      intro x hx
      exact hf x (h.mem_iff.mpr hx)
    rw [h2]
  | some p =>
    have hpmem : p ∈ l₂ := h.mem_iff.mp (List.mem_of_find?_eq_some hf)
    have hpk : p.1 = k := by simpa using List.find?_some hf
    cases hf₂ : List.find? (fun p => p.1 = k) l₂ with
    | none =>
      rw [List.find?_eq_none] at hf₂
      exact absurd (by simpa using hpk) (hf₂ p hpmem)
    | some q =>
      have hqmem : q ∈ l₁ := h.mem_iff.mpr (List.mem_of_find?_eq_some hf₂)
      have hqk : q.1 = k := by simpa using List.find?_some hf₂
      rw [nodup_key_mem_eq hnd (List.mem_of_find?_eq_some hf) hqmem (by rw [hpk, hqk])]

/-- C8: `generateKey` produces the same cache key for two params objects that
hold the same key-value pairs in different insertion orders (the keys of a JS
object are distinct). -/
theorem generateKey_order_irrelevant (service endpoint : String)
    (p₁ p₂ : List (String × JVal)) (hperm : p₁.Perm p₂)
    (hnd : (p₁.map Prod.fst).Nodup) :
    CacheManager.generateKey service endpoint p₁
      = CacheManager.generateKey service endpoint p₂ := by
  unfold CacheManager.generateKey
  have hkeys : sortKeysJs (p₁.map Prod.fst) = sortKeysJs (p₂.map Prod.fst) :=
    sortKeysJs_perm_eq (hperm.map Prod.fst)
  have hget : (fun k => (jsGet p₁ k).map (fun v => (k, v)))
      = (fun k => (jsGet p₂ k).map (fun v => (k, v))) := by
    funext k
    rw [jsGet_eq_of_perm hperm hnd k]
  rw [hkeys, hget]

/-- Closed instantiation of `generateKey_order_irrelevant` on two distinct
insertion orders of the same three-field query-params object (the shape
`aggregateNews` passes to `generateKey`). -/
theorem generateKey_order_irrelevant_witness :
    ([("timespan", JVal.str "3d"), ("query", JVal.str "syria"), ("language", JVal.str "en")].Perm
      [("query", JVal.str "syria"), ("language", JVal.str "en"), ("timespan", JVal.str "3d")])
    ∧ ([("timespan", JVal.str "3d"), ("query", JVal.str "syria"), ("language", JVal.str "en")]
        ≠ [("query", JVal.str "syria"), ("language", JVal.str "en"), ("timespan", JVal.str "3d")])
    ∧ CacheManager.generateKey "aggregated" "news"
        [("timespan", JVal.str "3d"), ("query", JVal.str "syria"), ("language", JVal.str "en")]
      = CacheManager.generateKey "aggregated" "news"
        [("query", JVal.str "syria"), ("language", JVal.str "en"), ("timespan", JVal.str "3d")] :=
  ⟨by decide, by decide,
   generateKey_order_irrelevant "aggregated" "news" _ _ (by decide) (by decide)⟩

/-! ### C9: country path validation -/

/-- C9 counterexample: the handler checks only the length of the `country`
path segment, so the 2-character value `"1!"`, which is not a 2-letter code,
is not rejected — aggregation proceeds. -/
theorem country_two_char_nonletters_accepted :
    specTwoLetters "1!" = false
    ∧ handleCountryRequest "1!" none = .aggregated "1!" "1d" := by
  constructor
  · decide
  · decide

/-- C9 (amended): the handler responds 400 with its explanatory message, and
performs no aggregation, exactly when the country path segment's length
differs from 2; every length-2 segment (letters or not) proceeds to
aggregation with the default timespan applied. -/
theorem country_length_check (c : String) (ts : Option String) :
    (c.length ≠ 2 → handleCountryRequest c ts = .badRequest countryErrorMsg)
    ∧ (c.length = 2 → handleCountryRequest c ts = .aggregated c (jsOrStr ts "1d")) := by
  constructor
  · intro h
    unfold handleCountryRequest
    rw [if_pos (Or.inr h)]
  · intro h
    unfold handleCountryRequest
    rw [if_neg]
    rintro (rfl | h2)
    · simp at h
    · exact h2 h

/-- Closed instantiation of `country_length_check`: a 3-letter code is
rejected with the explanatory message, a 2-letter code proceeds. -/
theorem country_length_check_witness :
    ("usa".length ≠ 2 ∧ handleCountryRequest "usa" none = .badRequest countryErrorMsg)
    ∧ ("us".length = 2 ∧ handleCountryRequest "us" none = .aggregated "us" "1d") :=
  ⟨⟨by decide, (country_length_check "usa" none).1 (by decide)⟩,
   ⟨by decide, (country_length_check "us" none).2 (by decide)⟩⟩

/-! ### C2: circuit breaker call behaviour -/

/-- While `CLOSED` (or `HALF_OPEN`), a call passes the gate unchanged. -/
theorem gate_not_open {cb : CircuitBreaker} (h : ¬ cb.state = .Open) (now : Int) :
    cb.gate now = some cb := by
  unfold CircuitBreaker.gate
  rw [if_neg h]

/-- A call whose gate rejects produces the circuit-open error and leaves the
breaker untouched; the wrapped function is never invoked. -/
theorem call_eq_of_gate_none {cb : CircuitBreaker} (now : Int) (b : Bool)
    (h : cb.gate now = none) : cb.call now b = (.circuitOpen, cb) := by
  unfold CircuitBreaker.call
  rw [h]

/-- A call whose gate passes invokes the wrapped function on the gated state. -/
theorem call_eq_of_gate_some {cb cb' : CircuitBreaker} (now : Int) (b : Bool)
    (h : cb.gate now = some cb') :
    cb.call now b = if b then (.ok, cb'.onSuccess) else (.fnError, cb'.onFailure now) := by
  unfold CircuitBreaker.call
  rw [h]

/-- `onFailure` unfolded to a single conditional on the original fields. -/
theorem onFailure_eq (cb : CircuitBreaker) (now : Int) :
    cb.onFailure now =
      if cb.failureThreshold ≤ cb.failureCount + 1 then
        { cb with failureCount := cb.failureCount + 1, lastFailureTime := some now,
                  state := .Open }
      else
        { cb with failureCount := cb.failureCount + 1, lastFailureTime := some now } := by
  unfold CircuitBreaker.onFailure
  rfl

/-- A sequence of consecutive wrapped-function failures starting from a
`CLOSED` breaker whose remaining budget equals the sequence length ends with
the circuit `OPEN`. -/
theorem runFailures_opens : ∀ (times : List Int) (cb : CircuitBreaker),
    cb.state = .Closed → cb.failureCount + times.length = cb.failureThreshold →
    times ≠ [] → (cb.runFailures times).state = .Open := by
  intro times
  induction times with
  | nil => intro cb _ _ hne; exact absurd rfl hne
  | cons t ts ih =>
    intro cb hstate hcount _
    have hcall : (cb.call t false).2 = cb.onFailure t := by
      rw [call_eq_of_gate_some t false (gate_not_open (by simp [hstate]) t)]
      rfl
    have hstep : cb.runFailures (t :: ts) = (cb.onFailure t).runFailures ts := by
      simp [CircuitBreaker.runFailures, List.foldl_cons, hcall]
    rw [hstep]
    cases ts with
    | nil =>
      simp only [List.length_cons, List.length_nil] at hcount
      simp only [CircuitBreaker.runFailures, List.foldl_nil]
      rw [onFailure_eq, if_pos (by omega)]
    | cons t' ts' =>
      simp only [List.length_cons] at hcount
      apply ih
      · rw [onFailure_eq, if_neg (by omega)]
        exact hstate
      · rw [onFailure_eq, if_neg (by omega)]
        show cb.failureCount + 1 + (t' :: ts').length = cb.failureThreshold
        simp only [List.length_cons]
        omega
      · simp

/-- C2: (i) after the failure threshold is reached the circuit is `OPEN`, and
while at most `cooldown` has elapsed since the last failure a call rejects
immediately with the circuit-open error, leaving the breaker unchanged and
never invoking the wrapped function; (ii) once strictly more than `cooldown`
has elapsed, the next call does invoke the wrapped function (the HalfOpen
probe); (iii) a single success during any invoked call resets `failureCount`
to 0 and the state to `CLOSED`; (iv) from `CLOSED`, `threshold − failureCount`
consecutive wrapped-function failures leave the circuit `OPEN`. -/
theorem circuitBreaker_call_spec (cb : CircuitBreaker) (now : Int) (b : Bool) (times : List Int) :
    (cb.state = .Open → now - (cb.lastFailureTime.getD 0) ≤ cb.timeout →
       cb.call now b = (.circuitOpen, cb))
    ∧ (cb.state = .Open → cb.timeout < now - (cb.lastFailureTime.getD 0) →
       (cb.call now b).1 ≠ .circuitOpen)
    ∧ ((cb.call now true).1 = .ok →
       (cb.call now true).2.failureCount = 0 ∧ (cb.call now true).2.state = .Closed)
    ∧ (cb.state = .Closed → cb.failureCount + times.length = cb.failureThreshold →
       times ≠ [] → (cb.runFailures times).state = .Open) := by
  refine ⟨?_, ?_, ?_, fun h1 h2 h3 => runFailures_opens times cb h1 h2 h3⟩
  · intro h1 h2
    apply call_eq_of_gate_none
    unfold CircuitBreaker.gate
    rw [if_pos h1, if_neg (not_lt.mpr h2)]
  · intro h1 h2
    have hg : cb.gate now = some { cb with state := .HalfOpen } := by
      unfold CircuitBreaker.gate
      rw [if_pos h1, if_pos h2]
    rw [call_eq_of_gate_some now b hg]
    cases b <;> simp
  · intro h
    cases hg : cb.gate now with
    | none =>
      rw [call_eq_of_gate_none now true hg] at h
      simp at h
    | some cb' =>
      rw [call_eq_of_gate_some now true hg]
      simp [CircuitBreaker.onSuccess]

/-- Closed instantiation of `circuitBreaker_call_spec`: a breaker at its
threshold rejects within the cooldown and probes after it; a success resets;
two failures trip a threshold-2 breaker. -/
theorem circuitBreaker_call_spec_witness :
    ((CircuitBreaker.mk 5 60000 .Open 5 (some 1000)).call 2000 true
        = (.circuitOpen, CircuitBreaker.mk 5 60000 .Open 5 (some 1000)))
    ∧ (((CircuitBreaker.mk 5 60000 .Open 5 (some 1000)).call 70000 true).1 ≠ .circuitOpen)
    ∧ (((CircuitBreaker.new 5 60000).call 0 true).2.failureCount = 0
       ∧ ((CircuitBreaker.new 5 60000).call 0 true).2.state = .Closed)
    ∧ ((CircuitBreaker.new 2 60000).runFailures [0, 1]).state = .Open :=
  ⟨(circuitBreaker_call_spec (CircuitBreaker.mk 5 60000 .Open 5 (some 1000)) 2000 true []).1
      (by decide) (by decide),
   (circuitBreaker_call_spec (CircuitBreaker.mk 5 60000 .Open 5 (some 1000)) 70000 true []).2.1
      (by decide) (by decide),
   (circuitBreaker_call_spec (CircuitBreaker.new 5 60000) 0 true []).2.2.1 (by decide),
   (circuitBreaker_call_spec (CircuitBreaker.new 2 60000) 0 true [0, 1]).2.2.2
      (by decide) (by decide) (by decide)⟩

/-! ### C10: OPEN/HALF_OPEN states carry failureCount at threshold -/

/-- The gate preserves the breaker invariant: the `OPEN` to `HALF_OPEN`
transition copies `failureCount` untouched. -/
theorem breakerInv_gate {cb cb' : CircuitBreaker} (hinv : breakerInv cb) (now : Int)
    (h : cb.gate now = some cb') : breakerInv cb' := by
  unfold CircuitBreaker.gate at h
  by_cases hs : cb.state = .Open
  · rw [if_pos hs] at h
    by_cases ht : now - (cb.lastFailureTime.getD 0) > cb.timeout
    · rw [if_pos ht] at h
      injection h with h
      subst h
      intro _
      exact hinv (Or.inl hs)
    · rw [if_neg ht] at h
      cases h
  · rw [if_neg hs] at h
    injection h with h
    subst h
    exact hinv

/-- One call preserves the breaker invariant. -/
theorem breakerInv_call {cb : CircuitBreaker} (hinv : breakerInv cb) (now : Int) (b : Bool) :
    breakerInv (cb.call now b).2 := by
  cases hg : cb.gate now with
  | none =>
    rw [call_eq_of_gate_none now b hg]
    exact hinv
  | some cb' =>
    have hinv' : breakerInv cb' := breakerInv_gate hinv now hg
    rw [call_eq_of_gate_some now b hg]
    cases b
    · show breakerInv (cb'.onFailure now)
      rw [onFailure_eq]
      by_cases hth : cb'.failureThreshold ≤ cb'.failureCount + 1
      · rw [if_pos hth]
        intro _
        exact hth
      · rw [if_neg hth]
        intro hs
        exact Nat.le_succ_of_le (hinv' hs)
    · show breakerInv (cb'.onSuccess)
      rintro (h | h) <;> simp [CircuitBreaker.onSuccess] at h

/-- The invariant is closed under folding a trace of calls. -/
theorem breakerInv_foldl (trace : List (Int × Bool)) (cb : CircuitBreaker) (h : breakerInv cb) :
    breakerInv (trace.foldl (fun c s => (c.call s.1 s.2).2) cb) := by
  induction trace generalizing cb with
  | nil => exact h
  | cons s rest ih =>
    rw [List.foldl_cons]
    exact ih _ (breakerInv_call h s.1 s.2)

/-- A run of calls from a fresh breaker preserves the invariant. -/
theorem breakerInv_run (th : Nat) (tmo : Int) (trace : List (Int × Bool)) :
    breakerInv ((CircuitBreaker.new th tmo).run trace) := by
  unfold CircuitBreaker.run
  exact breakerInv_foldl trace _ (by rintro (h | h) <;> cases h)

/-- C10: every breaker state reachable from a fresh breaker — including the
mid-call state produced by the gate's `OPEN` to `HALF_OPEN` transition, which
never resets `failureCount` — satisfies `breakerInv` (`OPEN` or `HALF_OPEN`
implies `failureCount ≥ failureThreshold`); and from any invariant
`HALF_OPEN` state, a single wrapped-function failure re-opens the circuit
immediately. -/
theorem breaker_halfopen_requires_threshold (th : Nat) (tmo : Int)
    (trace : List (Int × Bool)) (now now₂ : Int) (cb₃ cb₂ : CircuitBreaker) :
    breakerInv ((CircuitBreaker.new th tmo).run trace)
    ∧ (((CircuitBreaker.new th tmo).run trace).gate now = some cb₃ → breakerInv cb₃)
    ∧ (breakerInv cb₂ → cb₂.state = .HalfOpen → ((cb₂.call now₂ false).2).state = .Open) := by
  refine ⟨breakerInv_run th tmo trace, ?_, ?_⟩
  · intro h
    exact breakerInv_gate (breakerInv_run th tmo trace) now h
  · intro hinv hs
    rw [call_eq_of_gate_some now₂ false (gate_not_open (by simp [hs]) now₂)]
    show (cb₂.onFailure now₂).state = .Open
    rw [onFailure_eq, if_pos (Nat.le_succ_of_le (hinv (Or.inr hs)))]

/-- Closed instantiation of `breaker_halfopen_requires_threshold`: a
threshold-1 breaker tripped at time 0 probes at time 70000; its gate yields a
`HALF_OPEN` state still carrying the failure count, and a failing probe from
that state re-opens the circuit. -/
theorem breaker_halfopen_requires_threshold_witness :
    breakerInv ((CircuitBreaker.new 1 60000).run [(0, false)])
    ∧ (((CircuitBreaker.new 1 60000).run [(0, false)]).gate 70000
        = some (CircuitBreaker.mk 1 60000 .HalfOpen 1 (some 0))
       ∧ breakerInv (CircuitBreaker.mk 1 60000 .HalfOpen 1 (some 0)))
    ∧ (breakerInv (CircuitBreaker.mk 1 60000 .HalfOpen 1 (some 0))
       ∧ (CircuitBreaker.mk 1 60000 .HalfOpen 1 (some 0)).state = .HalfOpen
       ∧ (((CircuitBreaker.mk 1 60000 .HalfOpen 1 (some 0)).call 70001 false).2).state = .Open) :=
  ⟨(breaker_halfopen_requires_threshold 1 60000 [(0, false)] 70000 70001
      (CircuitBreaker.mk 1 60000 .HalfOpen 1 (some 0))
      (CircuitBreaker.mk 1 60000 .HalfOpen 1 (some 0))).1,
   ⟨by decide,
    (breaker_halfopen_requires_threshold 1 60000 [(0, false)] 70000 70001
      (CircuitBreaker.mk 1 60000 .HalfOpen 1 (some 0))
      (CircuitBreaker.mk 1 60000 .HalfOpen 1 (some 0))).2.1 (by decide)⟩,
   ⟨by decide, by decide,
    (breaker_halfopen_requires_threshold 1 60000 [(0, false)] 70000 70001
      (CircuitBreaker.mk 1 60000 .HalfOpen 1 (some 0))
      (CircuitBreaker.mk 1 60000 .HalfOpen 1 (some 0))).2.2 (by decide) (by decide)⟩⟩

/-! ### C4: rate limiter trailing-window bound -/

/-- `processStep` unfolded to a single conditional. -/
theorem processStep_eq (r : Nat) (st : RLState) (now : Int) :
    processStep r st now =
      if (pruneWindow st.requests now).length < r then
        { requests := pruneWindow st.requests now ++ [now], admitted := st.admitted ++ [now] }
      else
        { requests := pruneWindow st.requests now, admitted := st.admitted } := rfl

/-- One drain iteration preserves the limiter invariant: the retained window
is exactly the admitted timestamps younger than 60s, admitted timestamps never
exceed the clock, and every trailing 60-second window holds at most `r`
admissions. -/
theorem rl_step_inv (r : Nat) (n n' : Int) (st : RLState)
    (hreq : st.requests = st.admitted.filter (fun u => n - u < 60000))
    (hle : ∀ u ∈ st.admitted, u ≤ n)
    (hbound : ∀ t : Int, windowCount st.admitted t ≤ r)
    (hmono : n ≤ n') :
    (processStep r st n').requests
        = (processStep r st n').admitted.filter (fun u => n' - u < 60000)
    ∧ (∀ u ∈ (processStep r st n').admitted, u ≤ n')
    ∧ (∀ t : Int, windowCount (processStep r st n').admitted t ≤ r) := by
  have hprune : pruneWindow st.requests n'
      = st.admitted.filter (fun u => n' - u < 60000) := by
    rw [hreq]
    unfold pruneWindow
    rw [List.filter_filter]
    apply List.filter_congr
    intro u _
    by_cases h1 : n' - u < 60000
    · have h2 : n - u < 60000 := by omega
      simp [h1, h2]
    · simp [h1]
  rw [processStep_eq]
  by_cases hlen : (pruneWindow st.requests n').length < r
  · rw [if_pos hlen]
    refine ⟨?_, ?_, ?_⟩
    · simp only []
      rw [hprune, List.filter_append]
      have hself : List.filter (fun u => n' - u < 60000) [n'] = [n'] := by
        simp
      rw [hself]
    · intro u hu
      simp only [] at hu
      rcases List.mem_append.mp hu with hu' | hu'
      · exact le_trans (hle u hu') hmono
      · simp at hu'
        omega
    · intro t
      simp only [windowCount]
      rw [List.filter_append]
      by_cases hw : t - 60000 < n' ∧ n' ≤ t
      · have hone : List.filter (fun u => t - 60000 < u ∧ u ≤ t) [n'] = [n'] := by
          simp [hw.1, hw.2]
        rw [hone]
        have hsub : (st.admitted.filter (fun u => t - 60000 < u ∧ u ≤ t)).length
            ≤ (st.admitted.filter (fun u => n' - u < 60000)).length := by
          apply length_filter_mono
          intro u hu hWu
          have hW := of_decide_eq_true hWu
          have hun : u ≤ n := hle u hu
          have : n' - u < 60000 := by omega
          exact decide_eq_true this
        have hlt : (st.admitted.filter (fun u => n' - u < 60000)).length < r := by
          rw [← hprune]
          exact hlen
        simp only [List.length_append, List.length_cons, List.length_nil]
        omega
      · have hzero : List.filter (fun u => t - 60000 < u ∧ u ≤ t) [n'] = [] := by
          simp only [List.filter_cons, List.filter_nil]
          rw [if_neg]
          simp only [decide_eq_true_eq]
          exact hw
        rw [hzero, List.append_nil]
        exact hbound t
  · rw [if_neg hlen]
    refine ⟨hprune, fun u hu => le_trans (hle u hu) hmono, hbound⟩

/-- The limiter invariant propagates down a monotone drain run. -/
theorem rl_run_inv (r : Nat) : ∀ (times : List Int) (st : RLState) (n : Int),
    st.requests = st.admitted.filter (fun u => n - u < 60000) →
    (∀ u ∈ st.admitted, u ≤ n) →
    (∀ t : Int, windowCount st.admitted t ≤ r) →
    (∀ u ∈ times, n ≤ u) → List.Pairwise (· ≤ ·) times →
    ∀ t : Int, windowCount ((times.foldl (processStep r) st)).admitted t ≤ r := by
  intro times
  induction times with
  | nil =>
    intro st n _ _ h3 _ _ t
    simpa using h3 t
  | cons x xs ih =>
    intro st n h1 h2 h3 hlow hpw t
    rw [List.foldl_cons]
    have hx : n ≤ x := hlow x (List.mem_cons_self x xs)
    obtain ⟨g1, g2, g3⟩ := rl_step_inv r n x st h1 h2 h3 hx
    exact ih (processStep r st x) x g1 g2 g3
      (fun u hu => (List.pairwise_cons.mp hpw).1 u hu) (List.pairwise_cons.mp hpw).2 t

/-- C4: over any monotone sequence of drain-iteration clock readings, a fresh
limiter with capacity `r` admits at most `r` executions inside every trailing
60-second window; and a drain iteration admits a task (appending to
`admitted`) only when the pruned window holds strictly fewer than `r`
timestamps before the new one is recorded. -/
theorem rateLimiter_window_bound (r : Nat) (times : List Int)
    (hmono : List.Pairwise (· ≤ ·) times) (st : RLState) (now t : Int) :
    windowCount (processRun r times).admitted t ≤ r
    ∧ ((processStep r st now).admitted.length ≠ st.admitted.length →
        (pruneWindow st.requests now).length < r) := by
  constructor
  · unfold processRun
    cases times with
    | nil => simp [windowCount]
    | cons x xs =>
      apply rl_run_inv r (x :: xs) { requests := [], admitted := [] } x
      · simp
      · intro u hu
        simp at hu
      · intro t2
        simp [windowCount]
      · intro u hu
        rcases List.mem_cons.mp hu with rfl | hu'
        · exact le_refl u
        · exact (List.pairwise_cons.mp hmono).1 u hu'
      · exact hmono
  · intro hne
    by_cases hlen : (pruneWindow st.requests now).length < r
    · exact hlen
    · exfalso
      apply hne
      rw [processStep_eq, if_neg hlen]

/-- Closed instantiation of `rateLimiter_window_bound`: capacity 1, two
back-to-back requests — only one admission fits the window, and the admitting
iteration saw an empty pruned window. -/
theorem rateLimiter_window_bound_witness :
    List.Pairwise (fun a b : Int => a ≤ b) [0, 10]
    ∧ windowCount (processRun 1 [0, 10]).admitted 10 ≤ 1
    ∧ ((processStep 1 { requests := [], admitted := [] } 0).admitted.length
          ≠ ({ requests := [], admitted := [] } : RLState).admitted.length
       ∧ (pruneWindow ({ requests := [], admitted := [] } : RLState).requests 0).length < 1) :=
  ⟨by decide,
   (rateLimiter_window_bound 1 [0, 10] (by decide) { requests := [], admitted := [] } 0 10).1,
   ⟨by decide,
    (rateLimiter_window_bound 1 [0, 10] (by decide) { requests := [], admitted := [] } 0 10).2
      (by decide)⟩⟩

/-! ### C7: option validators -/

/-- `find?` over a cons, as a conditional. -/
theorem find?_cons_ite {α : Type} (p : α → Bool) (a : α) (l : List α) :
    List.find? p (a :: l) = if p a = true then some a else List.find? p l := by
  rw [List.find?_cons]
  by_cases h : p a = true <;> simp [h]

/-- Every field the allow-list filter keeps has its key on the allow-list. -/
theorem allowFilter_keys (allowed : List String) (params : List (String × Option JVal)) :
    ∀ p ∈ allowFilter allowed params, p.1 ∈ allowed := by
  intro p hp
  obtain ⟨a, _, hfa⟩ := List.mem_filterMap.mp hp
  cases hov : a.2 with
  | none => rw [hov] at hfa; cases hfa
  | some v =>
    rw [hov] at hfa
    simp only [] at hfa
    by_cases hc : allowed.contains a.1 = true
    · rw [if_pos hc] at hfa
      injection hfa with hfa
      subst hfa
      simpa using hc
    · rw [if_neg hc] at hfa
      cases hfa

/-- The clamp never introduces a new key. -/
theorem clampField_keys (nm : String) (d : Int) (l : List (String × JVal)) :
    ∀ p ∈ clampField nm d l, ∃ q ∈ l, p.1 = q.1 := by
  intro p hp
  unfold clampField at hp
  cases hf : l.find? (fun q => q.1 = nm) with
  | none => rw [hf] at hp; exact ⟨p, hp, rfl⟩
  | some q₀ =>
    rw [hf] at hp
    simp only [] at hp
    by_cases hc : (jvTruthy q₀.2 && jvOutOfRange q₀.2) = true
    · rw [if_pos hc] at hp
      obtain ⟨q, hq, hfq⟩ := List.mem_map.mp hp
      by_cases hq1 : q.1 = nm
      · rw [if_pos hq1] at hfq
        exact ⟨q, hq, by rw [← hfq]⟩
      · rw [if_neg hq1] at hfq
        exact ⟨q, hq, by rw [← hfq]⟩
    · rw [if_neg hc] at hp
      exact ⟨p, hp, rfl⟩

/-- The language check only removes fields. -/
theorem dropBadLanguage_sub (l : List (String × JVal)) :
    ∀ p ∈ dropBadLanguage l, p ∈ l := by
  intro p hp
  unfold dropBadLanguage at hp
  cases hf : l.find? (fun q => q.1 = "language") with
  | none => rw [hf] at hp; exact hp
  | some q₀ =>
    rw [hf] at hp
    simp only [] at hp
    by_cases hc : (jvTruthy q₀.2
        && !(match q₀.2 with | .str s => isLangCode s | .num _ => false)) = true
    · rw [if_pos hc] at hp
      exact (List.mem_filter.mp hp).1
    · rw [if_neg hc] at hp
      exact hp

/-- A defined field whose key is allowed survives the allow-list filter with
its value, as the first binding of its key. -/
theorem jsGet_allowFilter (allowed : List String) (params : List (String × Option JVal))
    (k : String) (v : JVal) (hk : allowed.contains k = true)
    (h : jsGetOpt params k = some (some v)) :
    jsGet (allowFilter allowed params) k = some v := by
  induction params with
  | nil => simp [jsGetOpt] at h
  | cons a rest ih =>
    unfold jsGetOpt at h
    rw [find?_cons_ite] at h
    by_cases hka : a.1 = k
    · rw [if_pos (by simp [hka])] at h
      simp only [Option.map_some'] at h
      injection h with h
      unfold allowFilter jsGet
      rw [List.filterMap_cons, h]
      simp only []
      rw [hka, if_pos hk]
      rw [find?_cons_ite, if_pos (by simp)]
      rfl
    · rw [if_neg (by simp [hka])] at h
      have ih' := ih h
      unfold allowFilter jsGet at ih' ⊢
      rw [List.filterMap_cons]
      cases hov : a.2 with
      | none => exact ih'
      | some w =>
        simp only []
        by_cases hc : allowed.contains a.1 = true
        · rw [if_pos hc, find?_cons_ite, if_neg (by simp [hka])]
          exact ih'
        · rw [if_neg hc]
          exact ih'

/-- After the replace loop, the clamped field carries the default. -/
theorem find?_map_replace (nm : String) (d : Int) (l : List (String × JVal))
    (p : String × JVal) (hf : l.find? (fun q => q.1 = nm) = some p) :
    (l.map (fun q => if q.1 = nm then (q.1, JVal.num d) else q)).find? (fun q => q.1 = nm)
      = some (nm, .num d) := by
  induction l with
  | nil => cases hf
  | cons a rest ih =>
    rw [find?_cons_ite] at hf
    rw [List.map_cons]
    by_cases ha : a.1 = nm
    · rw [if_pos ha, find?_cons_ite, if_pos (by simp [ha])]
      rw [ha]
    · rw [if_neg ha, find?_cons_ite, if_neg (by simp [ha])]
      rw [if_neg (by simp [ha])] at hf
      exact ih hf

/-- A truthy, out-of-range numeric field is replaced by the default. -/
theorem clampField_replace (nm : String) (d : Int) (l : List (String × JVal)) (n : Int)
    (h : jsGet l nm = some (.num n)) (hn : n ≠ 0) (hr : n < 1 ∨ 100 < n) :
    jsGet (clampField nm d l) nm = some (.num d) := by
  unfold jsGet at h
  cases hf : l.find? (fun q => q.1 = nm) with
  | none => rw [hf] at h; cases h
  | some p =>
    rw [hf] at h
    simp only [Option.map_some'] at h
    injection h with h
    unfold clampField
    rw [hf]
    simp only []
    rw [if_pos (by
      rw [h]
      simp only [jvTruthy, jvOutOfRange, Bool.and_eq_true, decide_eq_true_eq,
        Bool.or_eq_true, ne_eq, decide_not, Bool.not_eq_eq_eq_not, Bool.not_true,
        decide_eq_false_iff_not]
      constructor
      · intro h0
        exact hn (by exact_mod_cast h0)
      · rcases hr with hr | hr
        · exact Or.inl hr
        · exact Or.inr hr)]
    unfold jsGet
    rw [find?_map_replace nm d l p hf]
    rfl

/-- A field holding the (falsy) number 0 is left untouched by the clamp. -/
theorem clampField_keep_zero (nm : String) (d : Int) (l : List (String × JVal))
    (h : jsGet l nm = some (.num 0)) :
    jsGet (clampField nm d l) nm = some (.num 0) := by
  unfold jsGet at h
  cases hf : l.find? (fun q => q.1 = nm) with
  | none => rw [hf] at h; cases h
  | some p =>
    rw [hf] at h
    simp only [Option.map_some'] at h
    injection h with h
    unfold clampField
    rw [hf]
    simp only []
    rw [if_neg (by rw [h]; simp [jvTruthy])]
    unfold jsGet
    rw [hf]
    simp [h]

/-- The language check does not touch other keys. -/
theorem jsGet_dropBadLanguage (l : List (String × JVal)) (k : String)
    (hk : k ≠ "language") : jsGet (dropBadLanguage l) k = jsGet l k := by
  unfold dropBadLanguage
  cases hf : l.find? (fun p => p.1 = "language") with
  | none => rfl
  | some p =>
    simp only []
    by_cases hc : (jvTruthy p.2
        && !(match p.2 with | .str s => isLangCode s | .num _ => false)) = true
    · rw [if_pos hc]
      unfold jsGet
      rw [find?_filter_of_imp]
      intro a ha
      simp only [decide_eq_true_eq] at ha ⊢
      rw [ha]
      exact hk
    · rw [if_neg hc]

/-- C7 counterexample: a caller-supplied page size of 0 is out of range
(`0 < 1`) yet is not replaced by the safe default 20 — the clamp first tests
JS truthiness, and 0 is falsy. -/
theorem validate_pageSize_zero_not_clamped :
    jsGet (validateHeadlinesParams [("pageSize", some (.num 0))]) "pageSize" = some (.num 0)
    ∧ ((0 : Int) < 1 ∨ 100 < (0 : Int))
    ∧ jsGet (validateHeadlinesParams [("pageSize", some (.num 0))]) "pageSize"
        ≠ some (.num 20) :=
  ⟨by decide, Or.inl (by decide), by decide⟩

/-- C7 (amended): each validator drops fields whose key is off its allow-list
silently, and replaces a truthy out-of-range numeric page-size/limit value
(less than 1 or greater than 100) with the safe default (20 for NewsAPI,
25 for MediaStack); the out-of-range value 0, however, is falsy in JS and is
passed through unchanged rather than replaced. -/
theorem validators_spec (params : List (String × Option JVal)) (n : Int) :
    (∀ p ∈ validateHeadlinesParams params, p.1 ∈ headlinesAllowed)
    ∧ (∀ p ∈ validateSearchParams params, p.1 ∈ searchAllowed)
    ∧ (∀ p ∈ validateNewsParams params, p.1 ∈ newsAllowed)
    ∧ (jsGetOpt params "pageSize" = some (some (.num n)) → n ≠ 0 → (n < 1 ∨ 100 < n) →
        jsGet (validateHeadlinesParams params) "pageSize" = some (.num 20))
    ∧ (jsGetOpt params "pageSize" = some (some (.num n)) → n ≠ 0 → (n < 1 ∨ 100 < n) →
        jsGet (validateSearchParams params) "pageSize" = some (.num 20))
    ∧ (jsGetOpt params "limit" = some (some (.num n)) → n ≠ 0 → (n < 1 ∨ 100 < n) →
        jsGet (validateNewsParams params) "limit" = some (.num 25))
    ∧ (jsGetOpt params "pageSize" = some (some (.num 0)) →
        jsGet (validateHeadlinesParams params) "pageSize" = some (.num 0)) := by
  refine ⟨?_, ?_, ?_, ?_, ?_, ?_, ?_⟩
  · intro p hp
    obtain ⟨q, hq, hpq⟩ := clampField_keys "pageSize" 20 _ p hp
    rw [hpq]
    exact allowFilter_keys headlinesAllowed params q hq
  · intro p hp
    obtain ⟨q, hq, hpq⟩ := clampField_keys "pageSize" 20 _ p hp
    rw [hpq]
    exact allowFilter_keys searchAllowed params q (dropBadLanguage_sub _ q hq)
  · intro p hp
    obtain ⟨q, hq, hpq⟩ := clampField_keys "limit" 25 _ p hp
    rw [hpq]
    exact allowFilter_keys newsAllowed params q hq
  · intro h hn hr
    exact clampField_replace "pageSize" 20 _ n
      (jsGet_allowFilter headlinesAllowed params "pageSize" (.num n) (by decide) h) hn hr
  · intro h hn hr
    apply clampField_replace "pageSize" 20 _ n _ hn hr
    rw [jsGet_dropBadLanguage _ "pageSize" (by decide)]
    exact jsGet_allowFilter searchAllowed params "pageSize" (.num n) (by decide) h
  · intro h hn hr
    exact clampField_replace "limit" 25 _ n
      (jsGet_allowFilter newsAllowed params "limit" (.num n) (by decide) h) hn hr
  · intro h
    exact clampField_keep_zero "pageSize" 20 _
      (jsGet_allowFilter headlinesAllowed params "pageSize" (.num 0) (by decide) h)

/-- Closed instantiation of `validators_spec` on concrete option objects. -/
theorem validators_spec_witness :
    (("pageSize", JVal.num 20)
        ∈ validateHeadlinesParams [("pageSize", some (.num 200)), ("bogus", some (.str "x"))]
      ∧ "pageSize" ∈ headlinesAllowed)
    ∧ (("pageSize", JVal.num 20)
        ∈ validateSearchParams [("pageSize", some (.num 200)), ("bogus", some (.str "x"))]
      ∧ "pageSize" ∈ searchAllowed)
    ∧ (("limit", JVal.num 25) ∈ validateNewsParams [("limit", some (.num 200))]
      ∧ "limit" ∈ newsAllowed)
    ∧ (jsGet (validateHeadlinesParams [("pageSize", some (.num 200)), ("bogus", some (.str "x"))])
        "pageSize" = some (.num 20))
    ∧ (jsGet (validateSearchParams [("pageSize", some (.num 200)), ("bogus", some (.str "x"))])
        "pageSize" = some (.num 20))
    ∧ (jsGet (validateNewsParams [("limit", some (.num 200))]) "limit" = some (.num 25))
    ∧ (jsGet (validateHeadlinesParams [("pageSize", some (.num 0))]) "pageSize"
        = some (.num 0)) :=
  ⟨⟨by decide,
    (validators_spec [("pageSize", some (.num 200)), ("bogus", some (.str "x"))] 200).1
      ("pageSize", JVal.num 20) (by decide)⟩,
   ⟨by decide,
    (validators_spec [("pageSize", some (.num 200)), ("bogus", some (.str "x"))] 200).2.1
      ("pageSize", JVal.num 20) (by decide)⟩,
   ⟨by decide,
    (validators_spec [("limit", some (.num 200))] 200).2.2.1
      ("limit", JVal.num 25) (by decide)⟩,
   (validators_spec [("pageSize", some (.num 200)), ("bogus", some (.str "x"))] 200).2.2.2.1
      (by decide) (by decide) (Or.inr (by decide)),
   (validators_spec [("pageSize", some (.num 200)), ("bogus", some (.str "x"))] 200).2.2.2.2.1
      (by decide) (by decide) (Or.inr (by decide)),
   (validators_spec [("limit", some (.num 200))] 200).2.2.2.2.2.1
      (by decide) (by decide) (Or.inr (by decide)),
   (validators_spec [("pageSize", some (.num 0))] 0).2.2.2.2.2.2 (by decide)⟩

/-! ### C5: dedup by url in the merged article list -/

/-- Every article surviving the dedup filter has a non-empty, not-yet-seen
url, and is the first article of the input carrying that url. -/
theorem dedup_mem_spec : ∀ (l : List Article) (seen : List String) (a : Article),
    a ∈ dedupByUrl l seen →
    ∃ u, a.url = some u ∧ u ≠ "" ∧ u ∉ seen
      ∧ l.find? (fun x => x.url = some u) = some a := by
  intro l
  induction l with
  | nil => intro seen a ha; cases ha
  | cons x rest ih =>
    intro seen a ha
    unfold dedupByUrl at ha
    cases hxu : x.url with
    | none =>
      rw [hxu] at ha
      simp only [] at ha
      obtain ⟨u, hau, hne, hnseen, hfind⟩ := ih seen a ha
      refine ⟨u, hau, hne, hnseen, ?_⟩
      rw [find?_cons_ite, if_neg (by simp [hxu])]
      exact hfind
    | some w =>
      rw [hxu] at ha
      simp only [] at ha
      by_cases hcond : (w = "" ∨ seen.contains w = true)
      · rw [if_pos hcond] at ha
        obtain ⟨u, hau, hne, hnseen, hfind⟩ := ih seen a ha
        have hwu : w ≠ u := by
          rintro rfl
          rcases hcond with h | h
          · exact hne h
          · exact hnseen (by simpa using h)
        refine ⟨u, hau, hne, hnseen, ?_⟩
        rw [find?_cons_ite, if_neg (by simp [hxu]; exact hwu)]
        exact hfind
      · rw [if_neg hcond] at ha
        rcases List.mem_cons.mp ha with rfl | ha'
        · refine ⟨w, hxu, ?_, ?_, ?_⟩
          · exact fun h => hcond (Or.inl h)
          · exact fun hmem => hcond (Or.inr (by simpa using hmem))
          · rw [find?_cons_ite, if_pos (by simp [hxu])]
        · obtain ⟨u, hau, hne, hnseen, hfind⟩ := ih (w :: seen) a ha'
          have hwu : w ≠ u := fun h => hnseen (h ▸ List.mem_cons_self w seen)
          refine ⟨u, hau, hne, fun hm => hnseen (List.mem_cons_of_mem w hm), ?_⟩
          rw [find?_cons_ite, if_neg (by simp [hxu]; exact hwu)]
          exact hfind

/-- The dedup filter keeps at most one article per url, and none whose url is
already in `seen`. -/
theorem dedup_countP : ∀ (l : List Article) (seen : List String) (u : String),
    ((dedupByUrl l seen).countP (fun a => a.url = some u) ≤ 1)
    ∧ (u ∈ seen → (dedupByUrl l seen).countP (fun a => a.url = some u) = 0) := by
  intro l
  induction l with
  | nil => intro seen u; exact ⟨by simp [dedupByUrl], fun _ => by simp [dedupByUrl]⟩
  | cons x rest ih =>
    intro seen u
    unfold dedupByUrl
    cases hxu : x.url with
    | none => exact ih seen u
    | some w =>
      simp only []
      by_cases hcond : (w = "" ∨ seen.contains w = true)
      · rw [if_pos hcond]
        exact ih seen u
      · rw [if_neg hcond]
        constructor
        · rw [List.countP_cons]
          by_cases hwu : w = u
          · subst hwu
            have h0 : (dedupByUrl rest (w :: seen)).countP (fun a => a.url = some w) = 0 :=
              (ih (w :: seen) w).2 (List.mem_cons_self w seen)
            rw [h0]
            simp [hxu]
          · have h1 := (ih (w :: seen) u).1
            have hx : (decide (x.url = some u)) = false := by
              simp [hxu]
              exact hwu
            rw [hx]
            simpa using h1
        · intro hu
          rw [List.countP_cons]
          have hwu : w ≠ u := by
            rintro rfl
            exact hcond (Or.inr (by simpa using hu))
          have h0 : (dedupByUrl rest (w :: seen)).countP (fun a => a.url = some u) = 0 :=
            (ih (w :: seen) u).2 (List.mem_cons_of_mem w hu)
          have hx : (decide (x.url = some u)) = false := by
            simp [hxu]
            exact hwu
          rw [h0, hx]
          simp

/-- Membership in the finalized list factors through the dedup filter. -/
theorem mergeFinalize_sub (l : List Article) : ∀ a ∈ mergeFinalize l, a ∈ dedupByUrl l [] := by
  intro a ha
  unfold mergeFinalize sortByDateDesc at ha
  have h1 := (List.take_sublist 200 _).subset ha
  exact (List.perm_insertionSort _ _).mem_iff.mp h1

/-- The finalized list holds at most one article per url. -/
theorem mergeFinalize_countP (l : List Article) (u : String) :
    (mergeFinalize l).countP (fun a => a.url = some u) ≤ 1 := by
  unfold mergeFinalize sortByDateDesc
  calc (List.take 200 (List.insertionSort _ (dedupByUrl l []))).countP
          (fun a => a.url = some u)
      ≤ (List.insertionSort _ (dedupByUrl l [])).countP (fun a => a.url = some u) :=
        (List.take_sublist _ _).countP_le _
    _ = (dedupByUrl l []).countP (fun a => a.url = some u) :=
        (List.perm_insertionSort _ _).countP_eq _
    _ ≤ 1 := (dedup_countP l [] u).1

/-- C5: in the final article list of the merge step, every url appears at most
once (case-sensitive exact match), every surviving article has a non-null url
(null-url articles are dropped entirely), and the article kept for a url is
the first occurrence of that url in concatenation order. -/
theorem merge_dedup_spec (l : List Article) :
    (∀ u : String, (mergeFinalize l).countP (fun a => a.url = some u) ≤ 1)
    ∧ (∀ a ∈ mergeFinalize l, a.url ≠ none)
    ∧ (∀ a ∈ mergeFinalize l, ∀ u : String, a.url = some u →
        l.find? (fun x => x.url = some u) = some a) := by
  refine ⟨fun u => mergeFinalize_countP l u, ?_, ?_⟩
  · intro a ha
    obtain ⟨u, hau, _, _, _⟩ := dedup_mem_spec l [] a (mergeFinalize_sub l a ha)
    rw [hau]
    simp
  · intro a ha u hau
    obtain ⟨u', hau', _, _, hfind⟩ := dedup_mem_spec l [] a (mergeFinalize_sub l a ha)
    rw [hau] at hau'
    injection hau' with h
    rw [h]
    exact hfind

/-- Closed instantiation of `merge_dedup_spec`: two articles share a url (the
first wins), a third has a null url (it is dropped). -/
theorem merge_dedup_spec_witness :
    ((mergeFinalize
        [⟨"t1", "d", "c", some "http://x", 5, "s", "api", "au", none, []⟩,
         ⟨"t2", "d", "c", some "http://x", 9, "s", "api", "au", none, []⟩,
         ⟨"t3", "d", "c", none, 9, "s", "api", "au", none, []⟩]).countP
        (fun a => a.url = some "http://x") ≤ 1)
    ∧ ((⟨"t1", "d", "c", some "http://x", 5, "s", "api", "au", none, []⟩ : Article)
        ∈ mergeFinalize
          [⟨"t1", "d", "c", some "http://x", 5, "s", "api", "au", none, []⟩,
           ⟨"t2", "d", "c", some "http://x", 9, "s", "api", "au", none, []⟩,
           ⟨"t3", "d", "c", none, 9, "s", "api", "au", none, []⟩]
       ∧ (⟨"t1", "d", "c", some "http://x", 5, "s", "api", "au", none, []⟩ : Article).url ≠ none)
    ∧ List.find?
        (fun x : Article => x.url = some "http://x")
        ([⟨"t1", "d", "c", some "http://x", 5, "s", "api", "au", none, []⟩,
          ⟨"t2", "d", "c", some "http://x", 9, "s", "api", "au", none, []⟩,
          ⟨"t3", "d", "c", none, 9, "s", "api", "au", none, []⟩] : List Article)
        = some ⟨"t1", "d", "c", some "http://x", 5, "s", "api", "au", none, []⟩ :=
  ⟨(merge_dedup_spec
      [⟨"t1", "d", "c", some "http://x", 5, "s", "api", "au", none, []⟩,
       ⟨"t2", "d", "c", some "http://x", 9, "s", "api", "au", none, []⟩,
       ⟨"t3", "d", "c", none, 9, "s", "api", "au", none, []⟩]).1 "http://x",
   ⟨by decide,
    (merge_dedup_spec
      [⟨"t1", "d", "c", some "http://x", 5, "s", "api", "au", none, []⟩,
       ⟨"t2", "d", "c", some "http://x", 9, "s", "api", "au", none, []⟩,
       ⟨"t3", "d", "c", none, 9, "s", "api", "au", none, []⟩]).2.1
      ⟨"t1", "d", "c", some "http://x", 5, "s", "api", "au", none, []⟩ (by decide)⟩,
   (merge_dedup_spec
      [⟨"t1", "d", "c", some "http://x", 5, "s", "api", "au", none, []⟩,
       ⟨"t2", "d", "c", some "http://x", 9, "s", "api", "au", none, []⟩,
       ⟨"t3", "d", "c", none, 9, "s", "api", "au", none, []⟩]).2.2
      ⟨"t1", "d", "c", some "http://x", 5, "s", "api", "au", none, []⟩ (by decide)
      "http://x" (by decide)⟩

/-! ### C6: partial failure isolation in the aggregate -/

/-- Closed form of the `results.forEach` accumulation of `mergeResults`: each
field is the initial value followed by the per-element contributions. -/
theorem mergeFold_char (env : JsEnv) (maxPer : Nat) :
    ∀ (rs : List SettledResult) (init : MergedResult),
    rs.foldl (mergeStep env maxPer) init =
      { articles := init.articles ++ rs.flatMap (settledArticles env maxPer),
        sources := init.sources ++ rs.filterMap settledSource,
        errors := init.errors ++ rs.filterMap settledError,
        totalSources := init.totalSources + rs.countP settledIsFulfilled,
        successfulSources := init.successfulSources + rs.countP settledIsOk } := by
  intro rs
  induction rs with
  | nil => intro init; simp
  | cons r rest ih =>
    intro init
    rw [List.foldl_cons, ih]
    cases r with
    | rejected =>
      simp only [mergeStep, List.flatMap_cons, List.filterMap_cons, List.countP_cons,
        settledArticles, settledSource, settledError, settledIsFulfilled, settledIsOk,
        MergedResult.mk.injEq]
      refine ⟨by simp, by simp, by simp, by simp, by simp⟩
    | fulfilled o =>
      cases ho : o.result with
      | ok d =>
        simp only [mergeStep, ho, List.flatMap_cons, List.filterMap_cons, List.countP_cons,
          settledArticles, settledSource, settledError, settledIsFulfilled, settledIsOk,
          Outcome.isOk, MergedResult.mk.injEq]
        refine ⟨by simp, by simp, by simp, by simp; omega, by simp; omega⟩
      | err e =>
        simp only [mergeStep, ho, List.flatMap_cons, List.filterMap_cons, List.countP_cons,
          settledArticles, settledSource, settledError, settledIsFulfilled, settledIsOk,
          Outcome.isOk, MergedResult.mk.injEq]
        refine ⟨by simp, by simp, by simp, by simp; omega, by simp⟩

/-- The errors of a merged result are exactly the per-element error entries. -/
theorem mergeResults_errors (env : JsEnv) (maxPer : Nat) (rs : List SettledResult) :
    (mergeResults env maxPer rs).errors = rs.filterMap settledError := by
  show (rs.foldl (mergeStep env maxPer)
      { articles := [], sources := [], errors := [], totalSources := 0,
        successfulSources := 0 }).errors = _
  rw [mergeFold_char]
  simp

/-- The sources of a merged result are exactly the successful providers. -/
theorem mergeResults_sources (env : JsEnv) (maxPer : Nat) (rs : List SettledResult) :
    (mergeResults env maxPer rs).sources = rs.filterMap settledSource := by
  show (rs.foldl (mergeStep env maxPer)
      { articles := [], sources := [], errors := [], totalSources := 0,
        successfulSources := 0 }).sources = _
  rw [mergeFold_char]
  simp

/-- The articles of a merged result are the finalized concatenation of the
per-element contributions. -/
theorem mergeResults_articles (env : JsEnv) (maxPer : Nat) (rs : List SettledResult) :
    (mergeResults env maxPer rs).articles
      = mergeFinalize (rs.flatMap (settledArticles env maxPer)) := by
  show mergeFinalize ((rs.foldl (mergeStep env maxPer)
      { articles := [], sources := [], errors := [], totalSources := 0,
        successfulSources := 0 }).articles) = _
  rw [mergeFold_char]
  simp

/-- The success counter of a merged result counts the successful elements. -/
theorem mergeResults_successfulSources (env : JsEnv) (maxPer : Nat) (rs : List SettledResult) :
    (mergeResults env maxPer rs).successfulSources = rs.countP settledIsOk := by
  show (rs.foldl (mergeStep env maxPer)
      { articles := [], sources := [], errors := [], totalSources := 0,
        successfulSources := 0 }).successfulSources = _
  rw [mergeFold_char]
  simp

/-- Elements that are not successful contribute no articles. -/
theorem settledArticles_eq_nil (env : JsEnv) (maxPer : Nat) (r : SettledResult)
    (h : settledIsOk r = false) : settledArticles env maxPer r = [] := by
  cases r with
  | rejected => rfl
  | fulfilled o =>
    cases ho : o.result with
    | ok d =>
      exfalso
      simp [settledIsOk, Outcome.isOk, ho] at h
    | err e => simp [settledArticles, ho]

/-- Dropping unsuccessful elements does not change the contributed articles. -/
theorem flatMap_filter_isOk (env : JsEnv) (maxPer : Nat) (rs : List SettledResult) :
    (rs.filter settledIsOk).flatMap (settledArticles env maxPer)
      = rs.flatMap (settledArticles env maxPer) := by
  induction rs with
  | nil => rfl
  | cons r rest ih =>
    cases h : settledIsOk r
    · simp only [List.filter_cons, h, List.flatMap_cons, ih,
        settledArticles_eq_nil env maxPer r h, List.nil_append]
      simp [ih]
    · simp [List.filter_cons, h, List.flatMap_cons, ih]

/-- C6: the aggregate resolves with a fully-formed result in which (i) every
failing client is recorded in `errors` with its source name and message,
(ii) every successful client is recorded in `sources`, (iii) the article list
is exactly what the successful clients alone produce — a failing client never
discards another client's articles — and (iv) `successfulSources` counts the
successful clients. -/
theorem aggregate_failure_isolation (env : JsEnv) (maxPer : Nat) (outcomes : List Outcome)
    (s m : String) (d : RawData) :
    ((⟨s, .err m⟩ : Outcome) ∈ outcomes →
       (s, m) ∈ (aggregateOutcomes env maxPer outcomes).errors)
    ∧ ((⟨s, .ok d⟩ : Outcome) ∈ outcomes →
       s ∈ (aggregateOutcomes env maxPer outcomes).sources)
    ∧ (aggregateOutcomes env maxPer outcomes).articles
        = (aggregateOutcomes env maxPer (outcomes.filter Outcome.isOk)).articles
    ∧ (aggregateOutcomes env maxPer outcomes).successfulSources
        = (outcomes.filter Outcome.isOk).length := by
  refine ⟨?_, ?_, ?_, ?_⟩
  · intro h
    unfold aggregateOutcomes
    rw [mergeResults_errors]
    exact List.mem_filterMap.mpr ⟨.fulfilled ⟨s, .err m⟩, List.mem_map_of_mem _ h, rfl⟩
  · intro h
    unfold aggregateOutcomes
    rw [mergeResults_sources]
    exact List.mem_filterMap.mpr ⟨.fulfilled ⟨s, .ok d⟩, List.mem_map_of_mem _ h, rfl⟩
  · unfold aggregateOutcomes
    rw [mergeResults_articles, mergeResults_articles]
    have hmap : (outcomes.filter Outcome.isOk).map SettledResult.fulfilled
        = (outcomes.map SettledResult.fulfilled).filter settledIsOk := by
      rw [List.filter_map]
      rfl
    rw [hmap, flatMap_filter_isOk]
  · unfold aggregateOutcomes
    rw [mergeResults_successfulSources]
    rw [List.countP_map]
    rw [List.countP_eq_length_filter]
    rfl

/-- Closed instantiation of `aggregate_failure_isolation`: one client succeeds
with a NewsAPI-shaped payload while another fails with a timeout; the failure
is recorded and the success is unaffected. -/
theorem aggregate_failure_isolation_witness :
    ((⟨"gdelt", .err "timeout of 15000ms exceeded"⟩ : Outcome)
        ∈ [(⟨"newsapi", .ok (.obj (some [msRawArticle]) none)⟩ : Outcome),
           ⟨"gdelt", .err "timeout of 15000ms exceeded"⟩]
      ∧ ("gdelt", "timeout of 15000ms exceeded")
          ∈ (aggregateOutcomes envTest 50
              [⟨"newsapi", .ok (.obj (some [msRawArticle]) none)⟩,
               ⟨"gdelt", .err "timeout of 15000ms exceeded"⟩]).errors)
    ∧ ((⟨"newsapi", .ok (.obj (some [msRawArticle]) none)⟩ : Outcome)
        ∈ [(⟨"newsapi", .ok (.obj (some [msRawArticle]) none)⟩ : Outcome),
           ⟨"gdelt", .err "timeout of 15000ms exceeded"⟩]
      ∧ "newsapi"
          ∈ (aggregateOutcomes envTest 50
              [⟨"newsapi", .ok (.obj (some [msRawArticle]) none)⟩,
               ⟨"gdelt", .err "timeout of 15000ms exceeded"⟩]).sources)
    ∧ (aggregateOutcomes envTest 50
        [⟨"newsapi", .ok (.obj (some [msRawArticle]) none)⟩,
         ⟨"gdelt", .err "timeout of 15000ms exceeded"⟩]).articles
        = (aggregateOutcomes envTest 50
            ([⟨"newsapi", .ok (.obj (some [msRawArticle]) none)⟩,
              ⟨"gdelt", .err "timeout of 15000ms exceeded"⟩].filter Outcome.isOk)).articles
    ∧ (aggregateOutcomes envTest 50
        [⟨"newsapi", .ok (.obj (some [msRawArticle]) none)⟩,
         ⟨"gdelt", .err "timeout of 15000ms exceeded"⟩]).successfulSources
        = ([(⟨"newsapi", .ok (.obj (some [msRawArticle]) none)⟩ : Outcome),
            ⟨"gdelt", .err "timeout of 15000ms exceeded"⟩].filter Outcome.isOk).length :=
  ⟨⟨by decide,
    (aggregate_failure_isolation envTest 50
      [⟨"newsapi", .ok (.obj (some [msRawArticle]) none)⟩,
       ⟨"gdelt", .err "timeout of 15000ms exceeded"⟩]
      "gdelt" "timeout of 15000ms exceeded" (.obj (some [msRawArticle]) none)).1 (by decide)⟩,
   ⟨by decide,
    (aggregate_failure_isolation envTest 50
      [⟨"newsapi", .ok (.obj (some [msRawArticle]) none)⟩,
       ⟨"gdelt", .err "timeout of 15000ms exceeded"⟩]
      "newsapi" "timeout of 15000ms exceeded" (.obj (some [msRawArticle]) none)).2.1
      (by decide)⟩,
   (aggregate_failure_isolation envTest 50
      [⟨"newsapi", .ok (.obj (some [msRawArticle]) none)⟩,
       ⟨"gdelt", .err "timeout of 15000ms exceeded"⟩]
      "newsapi" "m" (.obj (some [msRawArticle]) none)).2.2.1,
   (aggregate_failure_isolation envTest 50
      [⟨"newsapi", .ok (.obj (some [msRawArticle]) none)⟩,
       ⟨"gdelt", .err "timeout of 15000ms exceeded"⟩]
      "newsapi" "m" (.obj (some [msRawArticle]) none)).2.2.2⟩

/-! ### C1: provider-shape extraction in mergeResults -/

/-- C1 evaluation: a successful MediaStack outcome whose `data` field holds a
non-empty article array contributes nothing to the merged article list — the
extraction's second branch re-tests `data.articles` instead of reading
`data.data`, so it never fires. The NewsAPI shape (`articles` field) and the
GDELT shape (bare array, sliced to the per-source cap) are extracted as the
claim describes. -/
theorem mediastack_articles_dropped :
    (mergeResults envTest 50
        [.fulfilled ⟨"mediastack", .ok (.obj none (some [msRawArticle]))⟩]).articles = []
    ∧ (mergeResults envTest 50
        [.fulfilled ⟨"mediastack", .ok (.obj none (some [msRawArticle]))⟩]).successfulSources
        = 1
    ∧ (mergeResults envTest 50
        [.fulfilled ⟨"mediastack", .ok (.obj none (some [msRawArticle]))⟩]).sources
        = ["mediastack"]
    ∧ extractRawArticles 50 (.obj none (some [msRawArticle])) = []
    ∧ extractRawArticles 50 (.obj (some [msRawArticle]) none) = [msRawArticle]
    ∧ extractRawArticles 1 (.arr [msRawArticle, msRawArticle]) = [msRawArticle] :=
  ⟨by decide, by decide, by decide, by decide, by decide, by decide⟩
